import Mathlib

/-!
Shallow embedding of the leak-graph construction engine of
src/reconstruction/tmp_server/src_logic/common/profiler.common.js
(easy-monitor), together with theorems about the claims of the
specification.

The embedding translates the source module function by function:
JS objects become structures, JS arrays become lists, in-place
mutation of the graph becomes explicit state passing, and the
distances / retained sizes delivered by the external snapshot
analyzer are modelled as an abstract pure function
serialize : Nat -> NodeDetail (the analyzer's materialization is
out of scope and is only consumed by this module).
-/

/-- A child reference inside a NodeDetail, as delivered by the snapshot
analyzer: the child's snapshot index together with the edge label
(JS field name_or_index). -/
structure ChildRef where
  index : Nat
  name_or_index : String
deriving DecidableEq, Repr

/-- The per-index node record returned by the snapshot analyzer
(analysisLib.serialize).  Distances are integers, retained sizes are
rationals (exact model of the JS numeric comparisons the module does). -/
structure NodeDetail where
  index : Nat
  id : String
  name : String
  distance : Int
  retainedSize : ℚ
  children : List ChildRef
deriving DecidableEq, Repr

/-- A node of the force graph, as pushed by createForceGraph
(profiler.common.js lines 101-110 and 133-142).  The JS attributes
object carries an isMain field only for interior nodes; boundary nodes
get an empty attributes object, modelled by attrIsMain = none.
The label / symbolSize fields are absent until the post-processing
pass fills them; they are carried here from the start with the
placeholder values "" / 0, which the post-processing overwrites. -/
structure GraphNode where
  index : Nat
  name : String
  attrIsMain : Option Bool
  id : String
  size : Nat
  category : Nat
  ignore : Bool
  flag : Bool
  label : String
  symbolSize : Nat
deriving DecidableEq, Repr

/-- A link of the force graph (profiler.common.js lines 145-151). -/
structure GraphLink where
  source : String
  target : String
  sourceIndex : Nat
  targetIndex : Nat
  name_or_index : String
deriving DecidableEq, Repr

/-- The force graph for one leak point: nodes, links and the leak
point's index (forceGraph.index, set at line 175). -/
structure ForceGraph where
  nodes : List GraphNode
  links : List GraphLink
  index : Nat
deriving DecidableEq, Repr

/-- findNode (profiler.common.js lines 19-25) specialised to the only
way the module uses it: mutate every node whose id equals the given
value by a callback.  The callback becomes a pure update function. -/
def findNodeUpd (upd : GraphNode → GraphNode) (v : String) (ns : List GraphNode) : List GraphNode :=
  ns.map (fun n => if n.id = v then upd n else n)

/-- The first findNode pass of the expand branch (lines 200-206): for
every accumulated target id, set that id's nodes to ignore=false,
flag=true.  Sequential, like the JS for loop. -/
def revealPass (ids : List String) (ns : List GraphNode) : List GraphNode :=
  ids.foldl (fun acc t => findNodeUpd (fun n => { n with ignore := false, flag := true }) t acc) ns

/-- The findNode pass of the collapse branch (lines 226-233): for every
accumulated target id, set that id's nodes to ignore=true, flag=true. -/
def hidePass (ids : List String) (ns : List GraphNode) : List GraphNode :=
  ids.foldl (fun acc t => findNodeUpd (fun n => { n with ignore := true, flag := true }) t acc) ns

/-- One step of the collapse branch's accumulation loop over the link
array (profiler.common.js lines 213-224).  For link l:
first, if l.source == data.id, push l.target (line 214-216); then the
inner for-in walks the accumulated list as it stood at that point and
pushes l.target once for every entry equal to l.source, provided
l.target != data.id (lines 217-223).  (V8's for-in does not visit
entries appended during the enumeration, so the inner walk sees the
snapshot acc1.) -/
def collapseStep (dataId : String) (acc : List String) (l : GraphLink) : List String :=
  let acc1 := if l.source = dataId then acc ++ [l.target] else acc
  if l.target ≠ dataId then
    acc1 ++ (acc1.filter (fun x => x = l.source)).map (fun _ => l.target)
  else acc1

/-- The full accumulation of the collapse branch: a single in-order
pass over the link array, folding collapseStep from the empty list. -/
def collapseAccum (dataId : String) (links : List GraphLink) : List String :=
  links.foldl (collapseStep dataId) []

/-- setExpandOff (profiler.common.js lines 188-241): the expand /
collapse state machine.  data.flag and data.id are read before any
node is mutated, so passing the data node by value is faithful.
Expand branch (flag true, lines 193-211): collect the targets of every
link whose source is data.id, reveal them, then mark the node itself
expanded.  Collapse branch (lines 212-240): accumulate target ids by
the single forward pass collapseAccum, hide them, then mark the node
itself collapsed. -/
def setExpandOff (g : ForceGraph) (data : GraphNode) : ForceGraph :=
  if data.flag then
    let linksNodes := (g.links.filter (fun l => l.source = data.id)).map (fun l => l.target)
    let ns := revealPass linksNodes g.nodes
    let ns := findNodeUpd (fun n => { n with ignore := false, flag := false, category := 0 }) data.id ns
    { g with nodes := ns }
  else
    let linksNodes := collapseAccum data.id g.links
    let ns := hidePass linksNodes g.nodes
    let ns := findNodeUpd (fun n => { n with ignore := true, flag := true, category := 1 }) data.id ns
    { g with nodes := ns }

/-- Closed form of revealPass: a node is revealed exactly when its id
occurs among the accumulated target ids. -/
theorem revealPass_eq (ids : List String) (ns : List GraphNode) :
    revealPass ids ns =
      ns.map (fun n => if n.id ∈ ids then { n with ignore := false, flag := true } else n) := by
  induction ids generalizing ns with
  | nil =>
    simp [revealPass]
  | cons t ts ih =>
    show revealPass ts (findNodeUpd _ t ns) = _
    rw [ih, findNodeUpd, List.map_map]
    apply List.map_congr_left
    intro n _
    by_cases h1 : n.id = t
    · simp [h1, List.mem_cons]
    · by_cases h2 : n.id ∈ ts <;> simp [h1, h2, List.mem_cons]

/-- Closed form of hidePass: a node is hidden exactly when its id
occurs among the accumulated target ids. -/
theorem hidePass_eq (ids : List String) (ns : List GraphNode) :
    hidePass ids ns =
      ns.map (fun n => if n.id ∈ ids then { n with ignore := true, flag := true } else n) := by
  induction ids generalizing ns with
  | nil =>
    simp [hidePass]
  | cons t ts ih =>
    show hidePass ts (findNodeUpd _ t ns) = _
    rw [ih, findNodeUpd, List.map_map]
    apply List.map_congr_left
    intro n _
    by_cases h1 : n.id = t
    · simp [h1, List.mem_cons]
    · by_cases h2 : n.id ∈ ts <;> simp [h1, h2, List.mem_cons]

/-- Closed form of the expand branch: the node with the toggled id ends
expanded (ignore=false, flag=false, category=0); every other node whose
id is the target of a link sourced at the toggled id ends revealed
(ignore=false, flag=true); all remaining nodes are untouched. -/
theorem setExpandOff_true_eq (g : ForceGraph) (data : GraphNode) (h : data.flag = true) :
    setExpandOff g data =
      { g with nodes := g.nodes.map (fun n =>
          if n.id = data.id then { n with ignore := false, flag := false, category := 0 }
          else if n.id ∈ (g.links.filter (fun l => l.source = data.id)).map (fun l => l.target) then
            { n with ignore := false, flag := true }
          else n) } := by
  rw [setExpandOff, h]
  simp only [if_true]
  rw [revealPass_eq, findNodeUpd, List.map_map]
  congr 1
  apply List.map_congr_left
  intro n _
  simp only [Function.comp_apply]
  by_cases h2 : n.id = data.id
  · by_cases h1 : n.id ∈ (g.links.filter (fun l => l.source = data.id)).map (fun l => l.target)
    · rw [if_pos h1, if_pos h2]
    · rw [if_neg h1, if_pos h2]
  · by_cases h1 : n.id ∈ (g.links.filter (fun l => l.source = data.id)).map (fun l => l.target)
    · rw [if_pos h1, if_neg h2]
    · rw [if_neg h1, if_neg h2]

/-- Closed form of the collapse branch: the node with the toggled id
ends collapsed (ignore=true, flag=true, category=1); every other node
whose id was accumulated by the forward pass ends hidden (ignore=true,
flag=true); all remaining nodes are untouched. -/
theorem setExpandOff_false_eq (g : ForceGraph) (data : GraphNode) (h : data.flag = false) :
    setExpandOff g data =
      { g with nodes := g.nodes.map (fun n =>
          if n.id = data.id then { n with ignore := true, flag := true, category := 1 }
          else if n.id ∈ collapseAccum data.id g.links then
            { n with ignore := true, flag := true }
          else n) } := by
  rw [setExpandOff, h]
  simp only [Bool.false_eq_true, if_false]
  rw [hidePass_eq, findNodeUpd, List.map_map]
  congr 1
  apply List.map_congr_left
  intro n _
  simp only [Function.comp_apply]
  by_cases h2 : n.id = data.id
  · by_cases h1 : n.id ∈ collapseAccum data.id g.links
    · rw [if_pos h1, if_pos h2]
    · rw [if_neg h1, if_pos h2]
  · by_cases h1 : n.id ∈ collapseAccum data.id g.links
    · rw [if_pos h1, if_neg h2]
    · rw [if_neg h1, if_neg h2]

/-- If no link has the toggled id as its source, the collapse
accumulation stays empty: the first push needs source == data.id and
the chained push needs source already accumulated. -/
theorem collapseAccum_of_no_source (dataId : String) (links : List GraphLink)
    (h : ∀ l ∈ links, l.source ≠ dataId) : collapseAccum dataId links = [] := by
  induction links with
  | nil => rfl
  | cons l ls ih =>
    have hl : l.source ≠ dataId := h l (List.mem_cons_self l ls)
    have hstep : collapseStep dataId [] l = [] := by
      simp [collapseStep, hl]
    show List.foldl (collapseStep dataId) (collapseStep dataId [] l) ls = []
    rw [hstep]
    exact ih (fun x hx => h x (List.mem_cons_of_mem l hx))

/-- Shorthand for building concrete graph nodes in the concrete test
graphs below: index, id (also used as name), ignore, flag, category. -/
def mkNode (ix : Nat) (nm : String) (ig fl : Bool) (cat : Nat) : GraphNode :=
  { index := ix, name := nm, attrIsMain := none, id := nm, size := 30,
    category := cat, ignore := ig, flag := fl, label := "", symbolSize := 0 }

/-- Concrete graph for the collapse counterexample: three nodes a, b, c
with links listed child-edge first ohne topological order:
the link b -> c appears before the link a -> b. -/
def gCollapse : ForceGraph :=
  { nodes := [mkNode 1 "a" false false 0, mkNode 2 "b" false true 1, mkNode 3 "c" false true 1],
    links := [{ source := "b", target := "c", sourceIndex := 2, targetIndex := 3, name_or_index := "x" },
              { source := "a", target := "b", sourceIndex := 1, targetIndex := 2, name_or_index := "y" }],
    index := 0 }

/-- C1 counterexample: node c is reachable from node a through the
transitive closure a -> b -> c (and the edge b -> c does not point
back at a), so the claim demands c.ignore = true after collapsing a.
The code's single forward pass over the link array misses c because
the link b -> c precedes the link a -> b, and c stays visible. -/
theorem claim1_counterexample :
    (gCollapse.links.map (fun l => (l.source, l.target)) = [("b", "c"), ("a", "b")]) ∧
    ((setExpandOff gCollapse (mkNode 1 "a" false false 0)).nodes.map (fun n => (n.id, n.ignore))
      = [("a", true), ("b", true), ("c", false)]) := by
  constructor
  · rfl
  · rfl

/-- C1 (amended): the Collapse transition accumulates ids by ONE
in-order pass over the link array (collapseAccum): a link contributes
its target when its source is the toggled id, or when its source was
already accumulated and its target is not the toggled id.  Every node
with an accumulated id is set to ignore=true, flag=true, and the
toggled node itself to ignore=true, flag=true, category=1; all other
nodes are unchanged. -/
theorem claim1_amended (g : ForceGraph) (data : GraphNode) (h : data.flag = false) :
    setExpandOff g data =
      { g with nodes := g.nodes.map (fun n =>
          if n.id = data.id then { n with ignore := true, flag := true, category := 1 }
          else if n.id ∈ collapseAccum data.id g.links then
            { n with ignore := true, flag := true }
          else n) } :=
  setExpandOff_false_eq g data h

/-- C1 witness: the amended collapse characterisation evaluated on the
concrete graph gCollapse. -/
theorem claim1_witness :
    (mkNode 1 "a" false false 0).flag = false ∧
    setExpandOff gCollapse (mkNode 1 "a" false false 0) =
      { gCollapse with nodes := gCollapse.nodes.map (fun n =>
          if n.id = (mkNode 1 "a" false false 0).id then
            { n with ignore := true, flag := true, category := 1 }
          else if n.id ∈ collapseAccum (mkNode 1 "a" false false 0).id gCollapse.links then
            { n with ignore := true, flag := true }
          else n) } :=
  ⟨rfl, claim1_amended gCollapse (mkNode 1 "a" false false 0) rfl⟩

/-- C2: the Expand transition (toggled node's flag is true) sets
ignore=false, flag=true on every node whose id is the target of a link
sourced at the toggled id, sets the toggled node itself to
ignore=false, flag=false, category=0 (the self update running last),
and leaves every other node unchanged. -/
theorem claim2_expand_transition (g : ForceGraph) (data : GraphNode) (h : data.flag = true) :
    setExpandOff g data =
      { g with nodes := g.nodes.map (fun n =>
          if n.id = data.id then { n with ignore := false, flag := false, category := 0 }
          else if n.id ∈ (g.links.filter (fun l => l.source = data.id)).map (fun l => l.target) then
            { n with ignore := false, flag := true }
          else n) } :=
  setExpandOff_true_eq g data h

/-- Concrete graph for the expand witness: node a with children b, c. -/
def gExpand : ForceGraph :=
  { nodes := [mkNode 1 "a" false true 1, mkNode 2 "b" true true 1, mkNode 3 "c" true true 1],
    links := [{ source := "a", target := "b", sourceIndex := 1, targetIndex := 2, name_or_index := "x" },
              { source := "a", target := "c", sourceIndex := 1, targetIndex := 3, name_or_index := "y" }],
    index := 0 }

/-- C2 witness: the expand characterisation evaluated on the concrete
graph gExpand. -/
theorem claim2_witness :
    (mkNode 1 "a" false true 1).flag = true ∧
    setExpandOff gExpand (mkNode 1 "a" false true 1) =
      { gExpand with nodes := gExpand.nodes.map (fun n =>
          if n.id = (mkNode 1 "a" false true 1).id then
            { n with ignore := false, flag := false, category := 0 }
          else if n.id ∈ (gExpand.links.filter
              (fun l => l.source = (mkNode 1 "a" false true 1).id)).map (fun l => l.target) then
            { n with ignore := false, flag := true }
          else n) } :=
  ⟨rfl, claim2_expand_transition gExpand (mkNode 1 "a" false true 1) rfl⟩

/-- Concrete graph for the leaf-toggle counterexample: a single node
with id a, flag true, and no links at all. -/
def gLeaf : ForceGraph :=
  { nodes := [mkNode 1 "a" true true 1], links := [], index := 0 }

/-- C8 counterexample: toggling a node with no outgoing links is NOT a
no-op on the whole graph state: the toggled node itself still
transitions (here its flag flips from true to false and its category
from 1 to 0). -/
theorem claim8_counterexample :
    setExpandOff gLeaf (mkNode 1 "a" true true 1) ≠ gLeaf := by
  decide

/-- C8 (amended): toggling a node whose id is not the source of any
link is a no-op (not an error) on every OTHER node and on the links;
the toggled node itself still performs its own transition: to the
expanded state when its flag is true, to the collapsed state when its
flag is false. -/
theorem claim8_amended (g : ForceGraph) (data : GraphNode)
    (h : ∀ l ∈ g.links, l.source ≠ data.id) :
    setExpandOff g data =
      { g with nodes := g.nodes.map (fun n =>
          if n.id = data.id then
            (if data.flag then { n with ignore := false, flag := false, category := 0 }
             else { n with ignore := true, flag := true, category := 1 })
          else n) } := by
  have hfilter : g.links.filter (fun l => l.source = data.id) = [] := by
    rw [List.filter_eq_nil_iff]
    intro l hl
    simp [h l hl]
  cases hf : data.flag
  · rw [setExpandOff_false_eq g data hf, collapseAccum_of_no_source data.id g.links h]
    congr 1
  · rw [setExpandOff_true_eq g data hf, hfilter]
    congr 1

/-- C8 witness: the amended leaf-toggle characterisation evaluated on
the concrete one-node graph gLeaf. -/
theorem claim8_witness :
    (∀ l ∈ gLeaf.links, l.source ≠ (mkNode 1 "a" true true 1).id) ∧
    setExpandOff gLeaf (mkNode 1 "a" true true 1) =
      { gLeaf with nodes := gLeaf.nodes.map (fun n =>
          if n.id = (mkNode 1 "a" true true 1).id then
            (if (mkNode 1 "a" true true 1).flag then
              { n with ignore := false, flag := false, category := 0 }
             else { n with ignore := true, flag := true, category := 1 })
          else n) } :=
  ⟨fun l hl => absurd hl (by simp [gLeaf]),
   claim8_amended gLeaf (mkNode 1 "a" true true 1) (fun l hl => absurd hl (by simp [gLeaf]))⟩

/-- JS object lookup for an association list (objects keyed by node
index or by the graph key string; JS object keys are unique). -/
def objGet {α κ : Type} [DecidableEq κ] : List (κ × α) → κ → Option α
  | [], _ => none
  | p :: ps, k => if p.1 = k then some p.2 else objGet ps k

/-- JS object property assignment: replace the value if the key is
present, append otherwise (JS objects hold each key once). -/
def objSet {α κ : Type} [DecidableEq κ] : List (κ × α) → κ → α → List (κ × α)
  | [], k, v => [(k, v)]
  | p :: ps, k, v => if p.1 = k then (k, v) :: ps else p :: objSet ps k v

/-- Reading back a key just written returns the written value. -/
theorem objGet_objSet_self {α κ : Type} [DecidableEq κ] (l : List (κ × α)) (k : κ) (v : α) :
    objGet (objSet l k v) k = some v := by
  induction l with
  | nil => simp [objSet, objGet]
  | cons p ps ih =>
    by_cases hp : p.1 = k
    · simp [objSet, objGet, hp]
    · simp [objSet, objGet, hp, ih]

/-- The three memory tunables of config.profiler.mem.optional that the
module reads (profiler.common.js lines 67-69). -/
structure MemConfig where
  distance_limit : Nat
  node_limit : ℚ
  leak_limit : Int
deriving DecidableEq, Repr

/-- An entry of the transient biggestList object (lines 73 and 123).
The seed entry for the leak point itself (line 73) carries only id,
source=null and retainedSize, so sourceId and distance are optional. -/
structure BiggestEntry where
  id : String
  source : Option Nat
  sourceId : Option String
  distance : Option Int
  retainedSize : ℚ
deriving DecidableEq, Repr

/-- A leak point delivered by the external leak detector; the module
only ever reads its index field. -/
structure LeakPoint where
  index : Nat
deriving DecidableEq, Repr

/-- The mutable state of one leak point's traversal in createForceGraph:
the graph under construction, the biggestList object, the isRecorded
id set and the tmpIndexArr frontier accumulator. -/
structure BState where
  nodes : List GraphNode
  links : List GraphLink
  biggest : List (Nat × BiggestEntry)
  recorded : List String
  tmp : List Nat
deriving DecidableEq, Repr

/-- The body of children.forEach (profiler.common.js lines 113-152),
processing one retained child of the node pDetail at hop dd:
push the child on tmpIndexArr when its id is unrecorded (117-119);
record it in biggestList when the parent is present there and the
distance window and relative-size tests pass (121-124); on the last
hop (dd = distance_limit) either stop (the JS return at 127 also skips
the link push) when the child id is recorded, or emit the boundary
node, visible only when the boundary hop is hop 2 (126-143); finally
push the parent-to-child link (145-151). -/
def processChild (serialize : Nat → NodeDetail) (cfg : MemConfig) (rootDistance : Int)
    (dd : Nat) (pDetail : NodeDetail) (st : BState) (child : ChildRef) : BState :=
  let cIndex := child.index
  let childDetail := serialize cIndex
  let st1 := { st with tmp := if childDetail.id ∈ st.recorded then st.tmp else st.tmp ++ [cIndex] }
  let biggest1 :=
    match objGet st1.biggest pDetail.index with
    | some b =>
      if |rootDistance - childDetail.distance| < cfg.leak_limit ∧
          childDetail.retainedSize / b.retainedSize > 1 / cfg.node_limit then
        objSet st1.biggest cIndex
          { id := childDetail.id, source := some pDetail.index, sourceId := some pDetail.id,
            distance := some childDetail.distance, retainedSize := childDetail.retainedSize }
      else st1.biggest
    | none => st1.biggest
  let st2 := { st1 with biggest := biggest1 }
  if dd = cfg.distance_limit ∧ childDetail.id ∈ st2.recorded then st2
  else
    let boundaryNode : GraphNode :=
      { index := childDetail.index, name := childDetail.id,
        attrIsMain := none, id := childDetail.id, size := 30, category := 1,
        ignore := if dd = 2 then false else true, flag := true,
        label := "", symbolSize := 0 }
    let st3 :=
      if dd = cfg.distance_limit then
        { st2 with recorded := childDetail.id :: st2.recorded,
                   nodes := st2.nodes ++ [boundaryNode] }
      else st2
    let newLink : GraphLink :=
      { source := pDetail.id, target := childDetail.id,
        sourceIndex := pDetail.index, targetIndex := childDetail.index,
        name_or_index := child.name_or_index }
    { st3 with links := st3.links ++ [newLink] }

/-- The body of leakIndexList.forEach (profiler.common.js lines 77-153):
materialize the frontier index, keep only the children one dominance
step deeper (line 84), skip an already recorded id (89), record the id,
emit the node (main node enlarged and visible, line 93-110), then fold
processChild over the retained children. -/
def processIndex (serialize : Nat → NodeDetail) (cfg : MemConfig) (leakIndex : Nat)
    (rootDistance : Int) (dd : Nat) (st : BState) (index : Nat) : BState :=
  let nodeDetail := serialize index
  let children := nodeDetail.children.filter
    (fun c => (serialize c.index).distance = 1 + nodeDetail.distance)
  if nodeDetail.id ∈ st.recorded then st
  else
    let parentNode : GraphNode :=
      { index := nodeDetail.index, name := nodeDetail.id,
        attrIsMain := some (decide (leakIndex = nodeDetail.index)), id := nodeDetail.id,
        size := if leakIndex = nodeDetail.index then 40 else 30,
        category := if leakIndex = nodeDetail.index then 0 else 1,
        ignore := if leakIndex = nodeDetail.index then false else true,
        flag := true, label := "", symbolSize := 0 }
    let st1 := { st with
      recorded := nodeDetail.id :: st.recorded,
      nodes := st.nodes ++ [parentNode] }
    children.foldl (processChild serialize cfg rootDistance dd nodeDetail) st1

/-- The while loop of createForceGraph (profiler.common.js lines
75-157).  The hop counter dd (distanceDisplay) starts at 1 and grows by
one each iteration, and the loop stops once dd exceeds
cfg.distance_limit, so distance_limit + 1 - dd bounds the remaining
iterations; fuel carries that bound, making the recursion structural.
With the fuel buildLeakState passes, fuel = 0 implies dd >
distance_limit, so the fuel-exhausted case returns exactly where the
while condition would stop. -/
def bfsLoop (serialize : Nat → NodeDetail) (cfg : MemConfig) (leakIndex : Nat)
    (rootDistance : Int) : Nat → Nat → List Nat → BState → BState
  | 0, _, _, st => st
  | fuel + 1, dd, frontier, st =>
    if frontier = [] ∨ cfg.distance_limit < dd then st
    else
      let st1 := frontier.foldl (processIndex serialize cfg leakIndex rootDistance dd)
        { st with tmp := [] }
      bfsLoop serialize cfg leakIndex rootDistance fuel (dd + 1) st1.tmp st1

/-- The traversal of one leak point (profiler.common.js lines 62-157):
seed biggestList with the leak point itself (line 73), record
rootDistance (line 72) and run the hop loop from frontier
[leak.index] at hop 1. -/
def buildLeakState (serialize : Nat → NodeDetail) (cfg : MemConfig) (leak : LeakPoint) : BState :=
  let rootDistance := (serialize leak.index).distance
  let seed : List (Nat × BiggestEntry) :=
    [(leak.index, { id := (serialize leak.index).id, source := none, sourceId := none,
                    distance := none, retainedSize := (serialize leak.index).retainedSize })]
  bfsLoop serialize cfg leak.index rootDistance cfg.distance_limit 1 [leak.index]
    { nodes := [], links := [], biggest := seed, recorded := [], tmp := [] }

/-- catchNode (profiler.common.js lines 11-13) as the module uses it at
line 164: the first node whose index equals the given biggestList key
(JS compares Number(item.index) === Number(key)). -/
def catchNode (nodes : List GraphNode) (value : Nat) : Option GraphNode :=
  (nodes.filter (fun n => n.index = value)).head?

/-- Ascending insertion used to model the iteration order of
Object.keys over biggestList. -/
def insertAsc (x : Nat) : List Nat → List Nat
  | [] => [x]
  | y :: ys => if x ≤ y then x :: y :: ys else y :: insertAsc x ys

/-- Object.keys of biggestList (line 163).  The keys are numeric
strings, and JS objects iterate integer-like keys in ascending numeric
order, so the key list is the sorted key set. -/
def sortedKeys (m : List (Nat × BiggestEntry)) : List Nat :=
  (m.map Prod.fst).foldr insertAsc []

/-- The pre-expansion pass (profiler.common.js lines 163-168): for
every biggestList key in iteration order, locate the node by index and
run setExpandOff on it; the node is looked up in the current, already
partly toggled graph, like the JS closure does. -/
def expandPass (keys : List Nat) (g : ForceGraph) : ForceGraph :=
  keys.foldl (fun g1 k =>
    match catchNode g1.nodes k with
    | some data => setExpandOff g1 data
    | none => g1) g

/-- The full per-leak-point graph construction (profiler.common.js
lines 60-178): traversal, pre-expansion of the biggestList nodes, the
label / symbolSize post-processing (170-173) and the index stamp
(175).  The heapUsed write-back of lines 159-161 mutates only the
external heapUsed object, never the graph, and is omitted here. -/
def buildLeakGraph (serialize : Nat → NodeDetail) (cfg : MemConfig) (leak : LeakPoint) :
    ForceGraph :=
  let st := buildLeakState serialize cfg leak
  let g := expandPass (sortedKeys st.biggest) { nodes := st.nodes, links := st.links, index := 0 }
  { nodes := g.nodes.map (fun n => { n with label := n.name, symbolSize := n.size }),
    links := g.links, index := leak.index }

/-- createForceGraph (profiler.common.js lines 56-182): one graph per
leak point, stored in forceGraphAll under the key name::id of the leak
point's materialized detail (line 178). -/
def createForceGraph (serialize : Nat → NodeDetail) (cfg : MemConfig)
    (leakPoint : List LeakPoint) : List (String × ForceGraph) :=
  leakPoint.foldl (fun acc leak =>
    let leakDetailTmp := serialize leak.index
    objSet acc (leakDetailTmp.name ++ "::" ++ leakDetailTmp.id)
      (buildLeakGraph serialize cfg leak)) []

/-- One call of the memoizing accessor returned by serializeNode
(profiler.common.js lines 32-49).  The closure cache _cache becomes an
explicit association list; the JS truthiness test (if cache) is a
presence test because the serialized records are objects, which are
always truthy.  The Bool reports whether the underlying serialization
primitive analysisLib.serialize was invoked. -/
def serializeNodeCall (prim : Nat → NodeDetail) (cache : List (Nat × NodeDetail))
    (index : Nat) : NodeDetail × List (Nat × NodeDetail) × Bool :=
  match objGet cache index with
  | some c => (c, cache, false)
  | none => (prim index, objSet cache index (prim index), true)

/-- memCalculator (profiler.common.js lines 247-251): the force graph
plus the search list, the root entry prepended to the leak points. -/
def memCalculator (serialize : Nat → NodeDetail) (cfg : MemConfig)
    (leakPoint : List LeakPoint) (rootIndex : Nat) :
    List (String × ForceGraph) × List LeakPoint :=
  (createForceGraph serialize cfg leakPoint, { index := rootIndex } :: leakPoint)

/-- The searchList projection of analyticsP (profiler.common.js line
386): mem_data.searchList.map(item => item.index). -/
def searchIndices (serialize : Nat → NodeDetail) (cfg : MemConfig)
    (leakPoint : List LeakPoint) (rootIndex : Nat) : List Nat :=
  (memCalculator serialize cfg leakPoint rootIndex).2.map (fun p => p.index)

/-- C7: the memoizing accessor invokes the serialization primitive on
the first call for an index and stores the result; the second call for
the same index returns the stored value, does not invoke the
primitive, and leaves the cache unchanged, so calling twice returns
the identical value. -/
theorem claim7_memoization (prim : Nat → NodeDetail) (cache : List (Nat × NodeDetail))
    (i : Nat) (h : objGet cache i = none) :
    serializeNodeCall prim cache i = (prim i, objSet cache i (prim i), true) ∧
    serializeNodeCall prim (objSet cache i (prim i)) i
      = (prim i, objSet cache i (prim i), false) := by
  constructor
  · rw [serializeNodeCall, h]
  · rw [serializeNodeCall, objGet_objSet_self]

/-- A concrete serialization primitive for the memoization witness. -/
def primW : Nat → NodeDetail := fun i =>
  { index := i, id := "w", name := "w", distance := 0, retainedSize := 1, children := [] }

/-- C7 witness: the memoization law evaluated on the empty cache at
index 3. -/
theorem claim7_witness :
    objGet ([] : List (Nat × NodeDetail)) 3 = none ∧
    (serializeNodeCall primW [] 3 = (primW 3, objSet [] 3 (primW 3), true) ∧
     serializeNodeCall primW (objSet [] 3 (primW 3)) 3
       = (primW 3, objSet [] 3 (primW 3), false)) :=
  ⟨rfl, claim7_memoization primW [] 3 rfl⟩

/-- C9: the searchList produced by memCalculator, mapped to indices
like analyticsP does, is exactly the root index followed by the leak
point indices in their given order. -/
theorem claim9_search_list (serialize : Nat → NodeDetail) (cfg : MemConfig)
    (leakPoint : List LeakPoint) (rootIndex : Nat) :
    searchIndices serialize cfg leakPoint rootIndex
      = rootIndex :: leakPoint.map (fun p => p.index) := by
  simp [searchIndices, memCalculator]

/-- C5 (amended): in processChild, the child is recorded in
biggestList exactly when the distance window test passes, the PARENT
itself is present in biggestList, and the child-to-parent
retained-size ratio test passes against the parent's recorded entry;
in every other case the child's biggestList entry is left as it was.
(The parent-presence conjunct, biggestList[nodeDetail.index] at line
122, is what the original claim's iff is missing.) -/
theorem claim5_amended (serialize : Nat → NodeDetail) (cfg : MemConfig) (rootDistance : Int)
    (dd : Nat) (pDetail : NodeDetail) (st : BState) (child : ChildRef) :
    objGet (processChild serialize cfg rootDistance dd pDetail st child).biggest child.index =
      match objGet st.biggest pDetail.index with
      | some b =>
        if |rootDistance - (serialize child.index).distance| < cfg.leak_limit ∧
            (serialize child.index).retainedSize / b.retainedSize > 1 / cfg.node_limit then
          some { id := (serialize child.index).id, source := some pDetail.index,
                 sourceId := some pDetail.id, distance := some (serialize child.index).distance,
                 retainedSize := (serialize child.index).retainedSize }
        else objGet st.biggest child.index
      | none => objGet st.biggest child.index := by
  simp only [processChild]
  cases hb : objGet st.biggest pDetail.index with
  | none =>
    simp only [hb]
    split_ifs <;> rfl
  | some b =>
    simp only [hb]
    split_ifs <;> simp [objGet_objSet_self]

/-- Concrete analyzer data for the C5 counterexample: the leak point 5
retains node 6 (tiny, so 6 never enters biggestList), and 6 retains
node 7, which passes both tests of the claim but whose parent 6 is not
in biggestList. -/
def serializeC5 : Nat → NodeDetail := fun i =>
  if i = 5 then { index := 5, id := "i5", name := "leak", distance := 0,
                  retainedSize := 1000, children := [⟨6, "a"⟩] }
  else if i = 6 then { index := 6, id := "i6", name := "mid", distance := 1,
                       retainedSize := 1, children := [⟨7, "b"⟩] }
  else if i = 7 then { index := 7, id := "i7", name := "big", distance := 2,
                       retainedSize := 1, children := [] }
  else { index := i, id := "x", name := "x", distance := -1000, retainedSize := 0, children := [] }

/-- Config for the C5 counterexample. -/
def cfgC5 : MemConfig := { distance_limit := 3, node_limit := 5, leak_limit := 10 }

/-- C5 counterexample: node 7 is a visited child (it is the target of
the traversed link 6 -> 7), |rootDistance - distance(7)| = 2 < 10 and
retained(7)/retained(parent 6) = 1 > 1/5, so the claim's iff demands
that 7 be recorded in biggestRetainers - but it is not, because its
parent 6 is itself absent from biggestList (6 failed the size test
against the leak point), and line 122 requires
biggestList[nodeDetail.index] to be present. -/
theorem claim5_counterexample :
    ((buildLeakState serializeC5 cfgC5 ⟨5⟩).links.map (fun l => (l.sourceIndex, l.targetIndex))
      = [(5, 6), (6, 7)]) ∧
    (|(serializeC5 5).distance - (serializeC5 7).distance| < cfgC5.leak_limit) ∧
    ((serializeC5 7).retainedSize / (serializeC5 6).retainedSize > 1 / cfgC5.node_limit) ∧
    objGet (buildLeakState serializeC5 cfgC5 ⟨5⟩).biggest 7 = none := by
  refine ⟨?_, ?_, ?_, ?_⟩
  · with_unfolding_all decide
  · with_unfolding_all decide
  · with_unfolding_all decide
  · with_unfolding_all decide

/-- Concrete analyzer data for the C6 scenario: distanceLimit 1, leak
point 5 whose only retained child is 6, one dominance step deeper. -/
def serializeC6 : Nat → NodeDetail := fun i =>
  if i = 5 then { index := 5, id := "i5", name := "leak", distance := 0,
                  retainedSize := 100, children := [⟨6, "e"⟩] }
  else if i = 6 then { index := 6, id := "i6", name := "kid", distance := 1,
                       retainedSize := 1, children := [] }
  else { index := i, id := "x", name := "x", distance := -1000, retainedSize := 0, children := [] }

/-- Config for the C6 scenario: distance_limit = 1. -/
def cfgC6 : MemConfig := { distance_limit := 1, node_limit := 5, leak_limit := 10 }

/-- C6 counterexample: with distanceLimit 1 the boundary rule does emit
node 6 with ignore=true (hop 1 is not hop 2), and the graph has
exactly the nodes 5, 6 and the link 5 -> 6 - but the RETURNED graph
has node 6 with ignore=false, not true as the claim states: the leak
point is always seeded in biggestList, so the pre-expansion pass runs
the Expand transition on node 5, revealing its direct child 6. -/
theorem claim6_counterexample :
    ((buildLeakGraph serializeC6 cfgC6 ⟨5⟩).nodes.map (fun n => (n.index, n.ignore))
      = [(5, false), (6, false)]) ∧
    ((buildLeakGraph serializeC6 cfgC6 ⟨5⟩).links.map (fun l => (l.sourceIndex, l.targetIndex))
      = [(5, 6)]) := by
  refine ⟨?_, ?_⟩
  · with_unfolding_all decide
  · with_unfolding_all decide

/-- Fold invariant: a property preserved by every step of a foldl
holds of the result. -/
theorem foldl_inv {σ α : Type} (P : σ → Prop) {f : σ → α → σ} :
    ∀ (l : List α) (s : σ), P s → (∀ s1 a, a ∈ l → P s1 → P (f s1 a)) → P (l.foldl f s) := by
  intro l
  induction l with
  | nil => intro s hs _; exact hs
  | cons x xs ih =>
    intro s hs hf
    exact ih (f s x) (hf s x (List.mem_cons_self x xs) hs)
      (fun s1 a ha hp => hf s1 a (List.mem_cons_of_mem x ha) hp)

/-- Membership after a JS object assignment: the element was already
present or is the newly written pair. -/
theorem mem_objSet {α κ : Type} [DecidableEq κ] (l : List (κ × α)) (k : κ) (v : α)
    (p : κ × α) (hp : p ∈ objSet l k v) : p ∈ l ∨ p = (k, v) := by
  induction l with
  | nil =>
    simp only [objSet, List.mem_singleton] at hp
    exact Or.inr hp
  | cons q qs ih =>
    simp only [objSet] at hp
    by_cases hq : q.1 = k
    · rw [if_pos hq] at hp
      rcases List.mem_cons.mp hp with h | h
      · exact Or.inr h
      · exact Or.inl (List.mem_cons_of_mem q h)
    · rw [if_neg hq] at hp
      rcases List.mem_cons.mp hp with h | h
      · exact Or.inl (h ▸ List.mem_cons_self q qs)
      · rcases ih h with h1 | h1
        · exact Or.inl (List.mem_cons_of_mem q h1)
        · exact Or.inr h1

/-- The retainer-edge invariant of a link list: every link joins a
source to a target one dominance step deeper, as materialized. -/
def LinkInv (serialize : Nat → NodeDetail) (links : List GraphLink) : Prop :=
  ∀ l ∈ links, (serialize l.targetIndex).distance = (serialize l.sourceIndex).distance + 1

/-- processChild preserves the retainer-edge invariant: the only link
it can append joins pDetail to a child that passed the
distance-filter of line 84. -/
theorem processChild_linkInv (serialize : Nat → NodeDetail) (cfg : MemConfig)
    (rootD : Int) (dd : Nat) (pDetail : NodeDetail) (st : BState) (child : ChildRef)
    (hw : ∀ i, (serialize i).index = i)
    (hpd : serialize pDetail.index = pDetail)
    (hc : (serialize child.index).distance = 1 + pDetail.distance)
    (hst : LinkInv serialize st.links) :
    LinkInv serialize (processChild serialize cfg rootD dd pDetail st child).links := by
  intro l hl
  simp only [processChild] at hl
  split at hl
  · exact hst l hl
  · split at hl
    all_goals {
      rcases List.mem_append.mp hl with h | h
      · exact hst l h
      · rw [List.mem_singleton] at h
        subst h
        simp only
        rw [hw child.index, hc, hpd]
        omega
    }

/-- processIndex preserves the retainer-edge invariant: every child
passed to processChild satisfies the distance filter. -/
theorem processIndex_linkInv (serialize : Nat → NodeDetail) (cfg : MemConfig)
    (leakIndex : Nat) (rootD : Int) (dd : Nat) (st : BState) (index : Nat)
    (hw : ∀ i, (serialize i).index = i)
    (hst : LinkInv serialize st.links) :
    LinkInv serialize (processIndex serialize cfg leakIndex rootD dd st index).links := by
  simp only [processIndex]
  split
  · exact hst
  · apply foldl_inv (fun (s : BState) => LinkInv serialize s.links)
    · exact hst
    · intro s1 a ha hp
      have hmem := List.mem_filter.mp ha
      have hc : (serialize a.index).distance = 1 + (serialize index).distance :=
        of_decide_eq_true hmem.2
      have hpd : serialize (serialize index).index = serialize index :=
        congrArg serialize (hw index)
      exact processChild_linkInv serialize cfg rootD dd (serialize index) s1 a hw hpd hc hp

/-- The hop loop preserves the retainer-edge invariant. -/
theorem bfsLoop_linkInv (serialize : Nat → NodeDetail) (cfg : MemConfig)
    (leakIndex : Nat) (rootD : Int) (hw : ∀ i, (serialize i).index = i) :
    ∀ (fuel dd : Nat) (frontier : List Nat) (st : BState),
      LinkInv serialize st.links →
      LinkInv serialize (bfsLoop serialize cfg leakIndex rootD fuel dd frontier st).links := by
  intro fuel
  induction fuel with
  | zero => intro dd frontier st hst; exact hst
  | succ n ih =>
    intro dd frontier st hst
    simp only [bfsLoop]
    split
    · exact hst
    · apply ih
      apply foldl_inv (fun (s : BState) => LinkInv serialize s.links)
      · exact hst
      · intro s1 a _ hp
        exact processIndex_linkInv serialize cfg leakIndex rootD dd s1 a hw hp

/-- The whole traversal of one leak point satisfies the retainer-edge
invariant (it starts from an empty link list). -/
theorem buildLeakState_linkInv (serialize : Nat → NodeDetail) (cfg : MemConfig)
    (leak : LeakPoint) (hw : ∀ i, (serialize i).index = i) :
    LinkInv serialize (buildLeakState serialize cfg leak).links := by
  apply bfsLoop_linkInv serialize cfg leak.index _ hw
  intro l hl
  simp at hl

/-- setExpandOff never touches the link list. -/
theorem setExpandOff_links (g : ForceGraph) (data : GraphNode) :
    (setExpandOff g data).links = g.links := by
  simp only [setExpandOff]
  split <;> rfl

/-- The pre-expansion pass never touches the link list. -/
theorem expandPass_links (keys : List Nat) : ∀ g : ForceGraph,
    (expandPass keys g).links = g.links := by
  induction keys with
  | nil => intro g; rfl
  | cons k ks ih =>
    intro g
    show (expandPass ks _).links = _
    rw [ih]
    cases hc : catchNode g.nodes k
    · simp [hc]
    · simp [hc, setExpandOff_links]

/-- The links of the finished per-leak graph are exactly the links
collected by the traversal. -/
theorem buildLeakGraph_links (serialize : Nat → NodeDetail) (cfg : MemConfig)
    (leak : LeakPoint) :
    (buildLeakGraph serialize cfg leak).links = (buildLeakState serialize cfg leak).links := by
  simp only [buildLeakGraph]
  rw [expandPass_links]

/-- C3: in every RetainerGraph built by createForceGraph, every link's
target materializes one dominance step deeper than its source:
target.distance = source.distance + 1 (only retainer edges are
emitted, thanks to the child filter of line 84). -/
theorem claim3_link_distance (serialize : Nat → NodeDetail) (cfg : MemConfig)
    (leakPoint : List LeakPoint) (hw : ∀ i, (serialize i).index = i) :
    ∀ kg ∈ createForceGraph serialize cfg leakPoint, ∀ l ∈ kg.2.links,
      (serialize l.targetIndex).distance = (serialize l.sourceIndex).distance + 1 := by
  simp only [createForceGraph]
  apply foldl_inv (fun (acc : List (String × ForceGraph)) => ∀ kg ∈ acc, ∀ l ∈ kg.2.links,
    (serialize l.targetIndex).distance = (serialize l.sourceIndex).distance + 1)
  · intro kg hkg
    simp at hkg
  · intro acc leak _ hacc kg hkg
    rcases mem_objSet _ _ _ kg hkg with h | h
    · exact hacc kg h
    · subst h
      intro l hl
      rw [buildLeakGraph_links] at hl
      exact buildLeakState_linkInv serialize cfg leak hw l hl

/-- The joint node invariant of the traversal state: node ids are
pairwise distinct, every emitted node's id is recorded in isRecorded,
and every emitted node's name equals its id (both are set from
nodeDetail.id). -/
def NodesInv (st : BState) : Prop :=
  (st.nodes.map (fun n => n.id)).Nodup ∧
  (∀ n ∈ st.nodes, n.id ∈ st.recorded) ∧
  (∀ n ∈ st.nodes, n.name = n.id)

/-- processChild preserves the node invariant: a boundary node is only
emitted under the isRecorded guard of line 127, and is recorded at
line 128 before the push. -/
theorem processChild_nodesInv (serialize : Nat → NodeDetail) (cfg : MemConfig)
    (rootD : Int) (dd : Nat) (pDetail : NodeDetail) (st : BState) (child : ChildRef)
    (hst : NodesInv st) :
    NodesInv (processChild serialize cfg rootD dd pDetail st child) := by
  obtain ⟨h1, h2, h3⟩ := hst
  simp only [processChild]
  split
  · exact ⟨h1, h2, h3⟩
  · rename_i hguard
    split
    · rename_i hdd
      have hnm : (serialize child.index).id ∉ st.recorded := fun hm => hguard ⟨hdd, hm⟩
      refine ⟨?_, ?_, ?_⟩
      · rw [List.map_append]
        rw [List.nodup_append]
        refine ⟨h1, List.nodup_singleton _, ?_⟩
        intro x hx hx2
        simp only [List.map_cons, List.map_nil, List.mem_singleton] at hx2
        subst hx2
        rcases List.mem_map.mp hx with ⟨n, hn, hid⟩
        exact hnm (hid ▸ h2 n hn)
      · intro n hn
        rcases List.mem_append.mp hn with h | h
        · exact List.mem_cons_of_mem _ (h2 n h)
        · rw [List.mem_singleton] at h
          subst h
          exact List.mem_cons_self _ _
      · intro n hn
        rcases List.mem_append.mp hn with h | h
        · exact h3 n h
        · rw [List.mem_singleton] at h
          subst h
          rfl
    · exact ⟨h1, h2, h3⟩

/-- processIndex preserves the node invariant: the parent node is only
emitted under the isRecorded guard of line 89 and recorded at line 90. -/
theorem processIndex_nodesInv (serialize : Nat → NodeDetail) (cfg : MemConfig)
    (leakIndex : Nat) (rootD : Int) (dd : Nat) (st : BState) (index : Nat)
    (hst : NodesInv st) :
    NodesInv (processIndex serialize cfg leakIndex rootD dd st index) := by
  obtain ⟨h1, h2, h3⟩ := hst
  simp only [processIndex]
  split
  · exact ⟨h1, h2, h3⟩
  · rename_i hnm
    apply foldl_inv NodesInv
    · refine ⟨?_, ?_, ?_⟩
      · rw [List.map_append]
        rw [List.nodup_append]
        refine ⟨h1, List.nodup_singleton _, ?_⟩
        intro x hx hx2
        simp only [List.map_cons, List.map_nil, List.mem_singleton] at hx2
        subst hx2
        rcases List.mem_map.mp hx with ⟨n, hn, hid⟩
        exact hnm (hid ▸ h2 n hn)
      · intro n hn
        rcases List.mem_append.mp hn with h | h
        · exact List.mem_cons_of_mem _ (h2 n h)
        · rw [List.mem_singleton] at h
          subst h
          exact List.mem_cons_self _ _
      · intro n hn
        rcases List.mem_append.mp hn with h | h
        · exact h3 n h
        · rw [List.mem_singleton] at h
          subst h
          rfl
    · intro s1 a _ hp
      exact processChild_nodesInv serialize cfg rootD dd (serialize index) s1 a hp

/-- The hop loop preserves the node invariant. -/
theorem bfsLoop_nodesInv (serialize : Nat → NodeDetail) (cfg : MemConfig)
    (leakIndex : Nat) (rootD : Int) :
    ∀ (fuel dd : Nat) (frontier : List Nat) (st : BState),
      NodesInv st → NodesInv (bfsLoop serialize cfg leakIndex rootD fuel dd frontier st) := by
  intro fuel
  induction fuel with
  | zero => intro dd frontier st hst; exact hst
  | succ n ih =>
    intro dd frontier st hst
    simp only [bfsLoop]
    split
    · exact hst
    · apply ih
      apply foldl_inv NodesInv
      · exact ⟨hst.1, hst.2.1, hst.2.2⟩
      · intro s1 a _ hp
        exact processIndex_nodesInv serialize cfg leakIndex rootD dd s1 a hp

/-- The whole traversal of one leak point satisfies the node
invariant (it starts from empty nodes and recorded lists). -/
theorem buildLeakState_nodesInv (serialize : Nat → NodeDetail) (cfg : MemConfig)
    (leak : LeakPoint) : NodesInv (buildLeakState serialize cfg leak) := by
  apply bfsLoop_nodesInv
  refine ⟨List.nodup_nil, ?_, ?_⟩ <;> intro n hn <;> simp at hn

/-- setExpandOff changes only ignore, flag and category: the id
projection of the node list is untouched. -/
theorem setExpandOff_map_id (g : ForceGraph) (data : GraphNode) :
    (setExpandOff g data).nodes.map (fun n => n.id) = g.nodes.map (fun n => n.id) := by
  cases hf : data.flag
  · rw [setExpandOff_false_eq g data hf]
    simp only [List.map_map]
    apply List.map_congr_left
    intro n _
    simp only [Function.comp_apply]
    split_ifs <;> rfl
  · rw [setExpandOff_true_eq g data hf]
    simp only [List.map_map]
    apply List.map_congr_left
    intro n _
    simp only [Function.comp_apply]
    split_ifs <;> rfl

/-- setExpandOff also leaves every node's name and id pair untouched. -/
theorem setExpandOff_map_nameid (g : ForceGraph) (data : GraphNode) :
    (setExpandOff g data).nodes.map (fun n => (n.name, n.id))
      = g.nodes.map (fun n => (n.name, n.id)) := by
  cases hf : data.flag
  · rw [setExpandOff_false_eq g data hf]
    simp only [List.map_map]
    apply List.map_congr_left
    intro n _
    simp only [Function.comp_apply]
    split_ifs <;> rfl
  · rw [setExpandOff_true_eq g data hf]
    simp only [List.map_map]
    apply List.map_congr_left
    intro n _
    simp only [Function.comp_apply]
    split_ifs <;> rfl

/-- The pre-expansion pass leaves the id projection untouched. -/
theorem expandPass_map_id (keys : List Nat) : ∀ g : ForceGraph,
    (expandPass keys g).nodes.map (fun n => n.id) = g.nodes.map (fun n => n.id) := by
  induction keys with
  | nil => intro g; rfl
  | cons k ks ih =>
    intro g
    show (expandPass ks _).nodes.map _ = _
    rw [ih]
    cases hc : catchNode g.nodes k
    · simp [hc]
    · simp [hc, setExpandOff_map_id]

/-- The pre-expansion pass leaves the name and id pairs untouched. -/
theorem expandPass_map_nameid (keys : List Nat) : ∀ g : ForceGraph,
    (expandPass keys g).nodes.map (fun n => (n.name, n.id))
      = g.nodes.map (fun n => (n.name, n.id)) := by
  induction keys with
  | nil => intro g; rfl
  | cons k ks ih =>
    intro g
    show (expandPass ks _).nodes.map _ = _
    rw [ih]
    cases hc : catchNode g.nodes k
    · simp [hc]
    · simp [hc, setExpandOff_map_nameid]

/-- C4: in every RetainerGraph built by createForceGraph, every node
id appears at most once in the nodes array. -/
theorem claim4_unique_ids (serialize : Nat → NodeDetail) (cfg : MemConfig)
    (leakPoint : List LeakPoint) :
    ∀ kg ∈ createForceGraph serialize cfg leakPoint,
      (kg.2.nodes.map (fun n => n.id)).Nodup := by
  simp only [createForceGraph]
  apply foldl_inv (fun (acc : List (String × ForceGraph)) =>
    ∀ kg ∈ acc, (kg.2.nodes.map (fun n => n.id)).Nodup)
  · intro kg h
    simp at h
  · intro acc leak _ hacc kg hkg
    rcases mem_objSet _ _ _ kg hkg with h | h
    · exact hacc kg h
    · subst h
      simp only [buildLeakGraph, List.map_map]
      have hcomp : ((fun n : GraphNode => n.id) ∘
          (fun n : GraphNode => { n with label := n.name, symbolSize := n.size }))
          = fun n : GraphNode => n.id := rfl
      rw [hcomp, expandPass_map_id]
      exact (buildLeakState_nodesInv serialize cfg leak).1

/-- C10: in every RetainerGraph built by createForceGraph, every
node's name equals its id (both are set from the materialized
NodeDetail's id), and after the post-processing of line 171 the label
equals the id as well. -/
theorem claim10_name_label_eq_id (serialize : Nat → NodeDetail) (cfg : MemConfig)
    (leakPoint : List LeakPoint) :
    ∀ kg ∈ createForceGraph serialize cfg leakPoint, ∀ n ∈ kg.2.nodes,
      n.name = n.id ∧ n.label = n.id := by
  simp only [createForceGraph]
  apply foldl_inv (fun (acc : List (String × ForceGraph)) =>
    ∀ kg ∈ acc, ∀ n ∈ kg.2.nodes, n.name = n.id ∧ n.label = n.id)
  · intro kg h
    simp at h
  · intro acc leak _ hacc kg hkg
    rcases mem_objSet _ _ _ kg hkg with h | h
    · exact hacc kg h
    · subst h
      intro n hn
      simp only [buildLeakGraph] at hn
      rcases List.mem_map.mp hn with ⟨m, hm, hpost⟩
      have hpair : (m.name, m.id) ∈
          (buildLeakState serialize cfg leak).nodes.map (fun n => (n.name, n.id)) := by
        have hmem : (m.name, m.id) ∈
            (expandPass (sortedKeys (buildLeakState serialize cfg leak).biggest)
              { nodes := (buildLeakState serialize cfg leak).nodes,
                links := (buildLeakState serialize cfg leak).links,
                index := 0 }).nodes.map (fun n => (n.name, n.id)) :=
          List.mem_map.mpr ⟨m, hm, rfl⟩
        rw [expandPass_map_nameid] at hmem
        exact hmem
      rcases List.mem_map.mp hpair with ⟨p, hp, hpq⟩
      have hnameid : m.name = m.id := by
        have := (buildLeakState_nodesInv serialize cfg leak).2.2 p hp
        have h1 : p.name = m.name := congrArg Prod.fst hpq
        have h2 : p.id = m.id := congrArg Prod.snd hpq
        rw [← h1, ← h2]
        exact this
      subst hpost
      exact ⟨hnameid, hnameid⟩

/-- serializeC5 reports each index faithfully (the snapshot analyzer
contract assumed by the graph theorems). -/
theorem serializeC5_wellIndexed : ∀ i, (serializeC5 i).index = i := by
  intro i
  simp only [serializeC5]
  split_ifs with h1 h2 h3 <;> simp_all

/-- The graph createForceGraph builds for the C5 scenario, as a
literal: leak point 5, chain 5 -> 6 -> 7. -/
def kgC5 : String × ForceGraph :=
  ("leak::i5",
   { nodes := [{ index := 5, name := "i5", attrIsMain := some true, id := "i5", size := 40,
                 category := 0, ignore := false, flag := false, label := "i5", symbolSize := 40 },
               { index := 6, name := "i6", attrIsMain := some false, id := "i6", size := 30,
                 category := 1, ignore := false, flag := true, label := "i6", symbolSize := 30 },
               { index := 7, name := "i7", attrIsMain := some false, id := "i7", size := 30,
                 category := 1, ignore := true, flag := true, label := "i7", symbolSize := 30 }],
     links := [{ source := "i5", target := "i6", sourceIndex := 5, targetIndex := 6,
                 name_or_index := "a" },
               { source := "i6", target := "i7", sourceIndex := 6, targetIndex := 7,
                 name_or_index := "b" }],
     index := 5 })

/-- The link 6 -> 7 of the C5 scenario graph. -/
def linkC5 : GraphLink :=
  { source := "i6", target := "i7", sourceIndex := 6, targetIndex := 7, name_or_index := "b" }

/-- C3 witness: the retainer-edge invariant applied to the concrete
link 6 -> 7 of the graph built for serializeC5. -/
theorem claim3_witness :
    (serializeC5 linkC5.targetIndex).distance = (serializeC5 linkC5.sourceIndex).distance + 1 :=
  claim3_link_distance serializeC5 cfgC5 [⟨5⟩] serializeC5_wellIndexed kgC5
    (by with_unfolding_all decide) linkC5 (by with_unfolding_all decide)

/-- C4 witness: id uniqueness applied to the concrete graph built for
serializeC5. -/
theorem claim4_witness : (kgC5.2.nodes.map (fun n => n.id)).Nodup :=
  claim4_unique_ids serializeC5 cfgC5 [⟨5⟩] kgC5 (by with_unfolding_all decide)

/-- The boundary node 7 of the C5 scenario graph. -/
def nodeC5 : GraphNode :=
  { index := 7, name := "i7", attrIsMain := some false, id := "i7", size := 30,
    category := 1, ignore := true, flag := true, label := "i7", symbolSize := 30 }

/-- C10 witness: name = id = label applied to the concrete node 7 of
the graph built for serializeC5. -/
theorem claim10_witness : nodeC5.name = nodeC5.id ∧ nodeC5.label = nodeC5.id :=
  claim10_name_label_eq_id serializeC5 cfgC5 [⟨5⟩] kgC5
    (by with_unfolding_all decide) nodeC5 (by with_unfolding_all decide)

/-- C6 (amended): with distanceLimit = 1 and a leak point at index 5
whose only retained child is index 6 one dominance step deeper, the
returned RetainerGraph has exactly the two nodes 5, 6 and the single
link 5 -> 6; but node 6's ignore field in the RETURNED graph is false,
not the boundary-rule value: the boundary rule does emit node 6 with
ignore=true (the boundary hop 1 is not hop 2), and the pre-expansion
pass then sets it to false, because the leak point is always seeded in
biggestRetainers and its Expand transition reveals its direct child. -/
theorem claim6_amended (serialize : Nat → NodeDetail) (cfg : MemConfig) (c : ChildRef)
    (hlim : cfg.distance_limit = 1)
    (h5x : (serialize 5).index = 5)
    (h6x : (serialize 6).index = 6)
    (hch : (serialize 5).children = [c])
    (hcx : c.index = 6)
    (hd : (serialize 6).distance = 1 + (serialize 5).distance)
    (hid : (serialize 6).id ≠ (serialize 5).id) :
    ((buildLeakGraph serialize cfg ⟨5⟩).nodes.map (fun n => n.index) = [5, 6]) ∧
    ((buildLeakGraph serialize cfg ⟨5⟩).links.map (fun l => (l.sourceIndex, l.targetIndex))
      = [(5, 6)]) ∧
    (∀ n ∈ (buildLeakGraph serialize cfg ⟨5⟩).nodes, n.index = 6 → n.ignore = false) := by
  by_cases hcond : |(serialize 5).distance - (1 + (serialize 5).distance)| < cfg.leak_limit ∧
      (serialize 6).retainedSize / (serialize 5).retainedSize > 1 / cfg.node_limit
  all_goals
    norm_num only [buildLeakGraph, buildLeakState, hlim, bfsLoop, List.cons_ne_self, false_or,
      Nat.lt_irrefl, if_false, List.foldl_cons, List.foldl_nil, processIndex, hch, hcx, hd,
      h5x, h6x, List.filter_cons, List.filter_nil, List.not_mem_nil, decide_True, if_true,
      List.nil_append, processChild, objGet, objSet, List.mem_singleton, hid, Ne.symm hid,
      List.mem_cons, or_false, hcond, and_true, and_false, if_false, if_true,
      sortedKeys, insertAsc, List.map_cons, List.map_nil, List.foldr_cons, List.foldr_nil,
      expandPass, catchNode, List.head?, setExpandOff, revealPass, hidePass, findNodeUpd,
      collapseAccum, collapseStep, List.cons_append, List.singleton_append,
      decide_False, decide_eq_true_eq, Bool.false_eq_true, Bool.true_eq_false, not_false_iff]
  all_goals
    refine ⟨trivial, trivial, ?_⟩
  all_goals
    rintro n (rfl | rfl) h6
  · simp at h6
  · rfl
  · simp at h6
  · rfl

/-- The boundary node 6 of the returned C6 scenario graph: note
ignore = false in the returned graph. -/
def nodeC6 : GraphNode :=
  { index := 6, name := "i6", attrIsMain := none, id := "i6", size := 30,
    category := 1, ignore := false, flag := true, label := "i6", symbolSize := 30 }

/-- C6 witness: the amended scenario evaluated on the concrete
analyzer data serializeC6 with distance_limit 1. -/
theorem claim6_witness :
    ((buildLeakGraph serializeC6 cfgC6 ⟨5⟩).nodes.map (fun n => n.index) = [5, 6]) ∧
    ((buildLeakGraph serializeC6 cfgC6 ⟨5⟩).links.map (fun l => (l.sourceIndex, l.targetIndex))
      = [(5, 6)]) ∧
    nodeC6.ignore = false :=
  ⟨(claim6_amended serializeC6 cfgC6 ⟨6, "e"⟩ rfl rfl rfl rfl rfl (by decide) (by decide)).1,
   (claim6_amended serializeC6 cfgC6 ⟨6, "e"⟩ rfl rfl rfl rfl rfl (by decide) (by decide)).2.1,
   (claim6_amended serializeC6 cfgC6 ⟨6, "e"⟩ rfl rfl rfl rfl rfl (by decide) (by decide)).2.2
     nodeC6 (by with_unfolding_all decide) rfl⟩
